import Mathlib

/-!
Formal model of the Petfinder-Database-Distributor core.

The repository persists harvested pet records in a CSV table keyed by the
`link` column (src/pet_scraper.py), maintains a resumable scraping /
verification loop with a JSON checkpoint (src/server.py), and re-validates
records against a field-failure threshold (src/verify.py).  The definitions
below are a shallow embedding of those functions: file contents are passed
explicitly, external network calls become oracle parameters, and the
sequence of file-system mutations performed by a rewrite is reified as a
list of operations.
-/

set_option maxHeartbeats 1000000

/-- The fixed CSV column set, in the order returned by `get_pet_csv_fields`
(src/pet_scraper.py lines 341-360). -/
inductive Col
  | link | name | location | age | gender | size | color | breed
  | spayed_neutered | vaccinated | special_needs | kids_compatible
  | dogs_compatible | cats_compatible | about_me | image
deriving DecidableEq

/-- A stored CSV row: one string value per column.  `csv.DictReader` rows are
normalised by the code to exactly this column set (missing columns become ""),
so a total function over `Col` is a faithful representation. -/
def PetRow : Type := Col → String

/-- An upsert payload (`pet_data` in `save_pet_to_csv`): columns present in the
dictionary carry their (string-converted) value, absent columns are `none`.
Boolean/None-to-string conversion has already been applied, as the code does
uniformly for every present column. -/
def PetData : Type := Col → Option String

/-- Python `str.strip()` on the character list: leading and trailing
whitespace removed. -/
def stripChars (l : List Char) : List Char :=
  ((l.dropWhile Char.isWhitespace).reverse.dropWhile Char.isWhitespace).reverse

/-- Python `s.strip()` for the strings this code strips (link values). -/
def pstrip (s : String) : String := ⟨stripChars s.data⟩

/-- `text.replace("\n", "\\n").replace("\r", "\\n")` from src/pet_scraper.py
line 370: every newline or carriage-return character becomes the two-character
sequence backslash-n.  The sequential Python replaces are equivalent to this
single pass, because the first replace introduces no carriage returns and the
second none of the replaced characters. -/
def escNLChars : List Char → List Char
  | [] => []
  | c :: cs =>
    if c = '\n' ∨ c = '\r' then '\\' :: 'n' :: escNLChars cs
    else c :: escNLChars cs

/-- String form of `escNLChars`. -/
def escVal (s : String) : String := ⟨escNLChars s.data⟩

/-- src/pet_scraper.py lines 369-370: if `about_me` is present and truthy
(nonempty), its newlines are escaped in place before the merge. -/
def escapePD (pd : PetData) : PetData := fun c =>
  if c = Col.about_me then (pd c).map (fun v => if v = "" then v else escVal v)
  else pd c

/-- The key under which a stored row is matched: `row.get("link", "").strip()`. -/
def rowKey (r : PetRow) : String := pstrip (r Col.link)

/-- The key of an upsert payload: `pet_data.get("link", "").strip()`
(src/pet_scraper.py line 376). -/
def petLink (pd : PetData) : String := pstrip ((pd Col.link).getD "")

/-- src/pet_scraper.py lines 387-398: the updated row takes the payload's
value for every column present in the payload and keeps the previously stored
value for every other column. -/
def mergeRow (pd : PetData) (r : PetRow) : PetRow := fun c => (pd c).getD (r c)

/-- src/pet_scraper.py lines 410-417: a fresh row takes the payload's value
where present and "" elsewhere. -/
def newRow (pd : PetData) : PetRow := fun c => (pd c).getD ""

/-- The row-level effect of `save_pet_to_csv` (src/pet_scraper.py lines
374-418) on the ordered list of stored rows, for an already-escaped payload:
if some row's key matches, every matching row is merge-updated in place and
all other rows are kept unchanged in order; otherwise the new row is appended
at the end. -/
def upsertRows (pd : PetData) (rows : List PetRow) : List PetRow :=
  if rows.any (fun r => rowKey r = petLink pd) then
    rows.map (fun r => if rowKey r = petLink pd then mergeRow pd r else r)
  else rows ++ [newRow pd]

/-- `save_pet_to_csv` (src/pet_scraper.py lines 363-450) at the level of the
stored row list: the `about_me` escape of line 370 followed by the merge-by-key
update.  (The temp-file/atomic-replace part of the same function is modelled
separately by `savePetOps` below.) -/
def save_pet_to_csv (pd : PetData) (rows : List PetRow) : List PetRow :=
  upsertRows (escapePD pd) rows

/-- Number of stored rows whose key equals `k`. -/
def countKey (k : String) (rows : List PetRow) : Nat :=
  (rows.filter (fun r => rowKey r = k)).length

/-- A sequence of upserts applied left to right. -/
def upsertSeq (pds : List PetData) (rows : List PetRow) : List PetRow :=
  pds.foldl (fun t p => save_pet_to_csv p t) rows

/-- Concrete payload whose `about_me` contains a literal newline. -/
def pdNewline : PetData := fun c =>
  if c = Col.link then some "L"
  else if c = Col.about_me then some "x\ny"
  else none

/-- Concrete payload used in witnesses: link "L", name "Rex". -/
def pdRex : PetData := fun c =>
  if c = Col.link then some "L"
  else if c = Col.name then some "Rex"
  else none

/-- Concrete payload for the same key with a different field captured. -/
def pdRex2 : PetData := fun c =>
  if c = Col.link then some "L"
  else if c = Col.age then some "Young"
  else none

/-- Observable checkpoint/validator events emitted by the verification pass,
in program order. -/
inductive VEvent
  | save (l : String)
  | validate (l : String)
deriving DecidableEq

/-- Result of the verification pass: the rows written back, the number of
removed rows, and the emitted event trace. -/
structure VerifyResult where
  kept : List PetRow
  removed : Nat
  events : List VEvent

/-- The verifying portion of `verify_all_pets` (src/server.py lines 428-464)
once `start_verifying` is true: rows with an empty stripped link are dropped
silently; for every other row the checkpoint is saved, then the validator is
called, and the row is kept or removed by its verdict. -/
def verifyFrom (valid : String → Bool) : List PetRow → VerifyResult
  | [] => ⟨[], 0, []⟩
  | r :: rs =>
    if rowKey r = "" then verifyFrom valid rs
    else if valid (rowKey r) then
      ⟨r :: (verifyFrom valid rs).kept, (verifyFrom valid rs).removed,
        .save (rowKey r) :: .validate (rowKey r) :: (verifyFrom valid rs).events⟩
    else
      ⟨(verifyFrom valid rs).kept, (verifyFrom valid rs).removed + 1,
        .save (rowKey r) :: .validate (rowKey r) :: (verifyFrom valid rs).events⟩

/-- The resuming portion of `verify_all_pets` (src/server.py lines 421-441)
while `start_verifying` is false: empty-key rows are dropped, rows before the
resume key are kept unexamined, and verification starts at the first row whose
key equals the resume key (that row included). -/
def skipToResume (valid : String → Bool) (resume : String) : List PetRow → VerifyResult
  | [] => ⟨[], 0, []⟩
  | r :: rs =>
    if rowKey r = "" then skipToResume valid resume rs
    else if rowKey r = resume then verifyFrom valid (r :: rs)
    else
      ⟨r :: (skipToResume valid resume rs).kept, (skipToResume valid resume rs).removed,
        (skipToResume valid resume rs).events⟩

/-- `verify_all_pets` (src/server.py lines 390-490) at the level of the stored
row list: the returned structure holds the rows written back by the final
rewrite, the returned removed count, and the save/validate event trace.
`valid` is the external `verify_link` verdict. -/
def verify_all_pets (valid : String → Bool) (resume : Option String)
    (rows : List PetRow) : VerifyResult :=
  match resume with
  | none => verifyFrom valid rows
  | some k => skipToResume valid k rows

/-- Concrete row whose every column is a single space (whitespace-only link). -/
def wsRow : PetRow := fun _ => " "

/-- Concrete row with link "K". -/
def rowK : PetRow := fun c => if c = Col.link then "K" else ""

/-- Concrete row with link "L". -/
def rowL : PetRow := fun c => if c = Col.link then "L" else ""

/-- Validator oracle accepting everything. -/
def vTrue : String → Bool := fun _ => true

/-- `verify_link` (src/verify.py lines 9-37).  `fetchCount link` models the
external `scrape_pet_data_only(link)` call: `some n` is a successful re-fetch
reporting `n` failed fields (out of the 15 expected), `none` models the call
raising, which the function catches and treats as invalid. -/
def verify_link (fetchCount : String → Option Nat) (link : String) : Bool :=
  match fetchCount link with
  | none => false
  | some n => if n ≥ 3 then false else true

/-- State of the two paths involved in a rewrite: the persisted table
(`pets.csv`) and the temporary file (`pets.csv.tmp`); `none` means the path
does not exist. -/
structure FsState (α : Type) where
  csv : Option α
  tmp : Option α

/-- File-system operations performed by the rewrite code paths. -/
inductive FsOp (α : Type)
  | removeTmp
  | writeTmp (c : α)
  | replaceTmp
deriving DecidableEq

/-- Effect of one operation.  `replaceTmp` models `os.replace(tmp, csv)`:
atomically, the csv path takes the temp file's content and the temp path
disappears.  (In every trace below it is only reached with the temp file
present.) -/
def applyOp {α : Type} (fs : FsState α) : FsOp α → FsState α
  | .removeTmp => ⟨fs.csv, none⟩
  | .writeTmp c => ⟨fs.csv, some c⟩
  | .replaceTmp =>
    match fs.tmp with
    | some c => ⟨some c, none⟩
    | none => fs

/-- Left-to-right application of an operation list. -/
def applyOps {α : Type} (fs : FsState α) (ops : List (FsOp α)) : FsState α :=
  ops.foldl applyOp fs

/-- The file-system trace of the verification rewrite (src/server.py lines
409-416 and 466-475): remove any leftover temp file, write the complete new
table to the temp path (with flush), then `os.replace` it into place. -/
def verifyRewriteOps {α : Type} (c : α) : List (FsOp α) :=
  [.removeTmp, .writeTmp c, .replaceTmp]

/-- The file-system trace of the per-upsert rewrite in `save_pet_to_csv`
(src/pet_scraper.py lines 420-441): write the complete new table to the temp
path (truncating any previous temp content), flush+fsync, then `os.replace`
it into place. -/
def savePetOps {α : Type} (c : α) : List (FsOp α) :=
  [.writeTmp c, .replaceTmp]

/-- Observable events of the page-lister retry loop. -/
inductive FetchEv
  | attempt (i : Nat)
  | wait (secs : Nat)
deriving DecidableEq

/-- Whether an event is a lister attempt. -/
def isAttemptEv : FetchEv → Bool
  | .attempt _ => true
  | .wait _ => false

/-- The retry loop of `scrape_pets_from_page` (src/server.py lines 319-336):
`max_retries = 3` attempts at `extract_links_from_html`, with a fixed
`retry_delay = 5` second sleep after each failed attempt except the last,
whose exception is re-raised.  `lister i` is attempt `i`'s outcome (`none`
models the extraction raising). -/
def fetchLinksRetry (lister : Nat → Option (List String)) :
    Option (List String) × List FetchEv :=
  match lister 0 with
  | some ls => (some ls, [.attempt 0])
  | none =>
    match lister 1 with
    | some ls => (some ls, [.attempt 0, .wait 5, .attempt 1])
    | none =>
      match lister 2 with
      | some ls => (some ls, [.attempt 0, .wait 5, .attempt 1, .wait 5, .attempt 2])
      | none => (none, [.attempt 0, .wait 5, .attempt 1, .wait 5, .attempt 2])

/-- Per-link loop of `scrape_pets_from_page` (src/server.py lines 350-372):
known links are skipped, a failing per-item fetch is caught and skipped, a
successful fetch is counted and its link added to the in-batch known set. -/
def countNewPets (fetchOk : String → Bool) : List String → List String → Nat
  | [], _ => 0
  | l :: ls, existing =>
    if l ∈ existing then countNewPets fetchOk ls existing
    else if fetchOk l then 1 + countNewPets fetchOk ls (l :: existing)
    else countNewPets fetchOk ls existing

/-- `scrape_pets_from_page` (src/server.py lines 305-387): the retry loop for
the page lister, the empty-page early return, the per-link scraping loop, and
the outer handler that logs any escaping error and returns 0.  The function
always returns normally with a count. -/
def scrape_pets_from_page (lister : Nat → Option (List String))
    (fetchOk : String → Bool) (existing : List String) : Nat :=
  match (fetchLinksRetry lister).1 with
  | none => 0
  | some links => if links.length = 0 then 0 else countNewPets fetchOk links existing

/-- Upper page bound of the harvest range (src/server.py line 587). -/
def PAGE_MAX : Nat := 10000

/-- `range(start_page, 10001)` from src/server.py line 587. -/
def pagesFrom (s : Nat) : List Nat := List.range' s (PAGE_MAX + 1 - s)

/-- Category selection of src/server.py lines 593-604: on the resumed first
page, a truthy saved pet type of "dog" selects both categories and anything
else selects only "cat"; every other page scrapes both categories in order. -/
def petTypesFor (page startPage : Nat) (startType : String) : List String :=
  if page = startPage ∧ startType ≠ "" then
    if startType = "dog" then ["dog", "cat"] else ["cat"]
  else ["dog", "cat"]

/-- The ordered (page, category) pairs processed by one nominal pass of the
harvest loop (src/server.py lines 587-624) started from checkpoint
`(startPage, startType)`. -/
def processedPairs (startPage : Nat) (startType : String) : List (Nat × String) :=
  ((pagesFrom startPage).map
    (fun p => (petTypesFor p startPage startType).map (fun c => (p, c)))).flatten

/-- Position of a category in the fixed scan order (dog, cat). -/
def catIdx (c : String) : Nat := if c = "dog" then 0 else 1

/-- The (page, category) pairs already completed when the checkpoint (P, C)
was saved: the save at src/server.py line 615 runs right after category C of
page P finishes, so every earlier page and every category of page P up to and
including C is complete. -/
def completedBefore (P : Nat) (C : String) (p : Nat) (c : String) : Prop :=
  1 ≤ p ∧ (p < P ∨ (p = P ∧ catIdx c ≤ catIdx C))

instance (P : Nat) (C : String) (p : Nat) (c : String) :
    Decidable (completedBefore P C p c) := by
  unfold completedBefore; infer_instance

/-- The parsed content of `scraping_progress.json` as `load_progress` reads
it: each field is `progress.get(...)`, absent keys are `none`. -/
structure ProgressDoc where
  mode : Option String
  page : Option Int
  pet_type : Option String
  verification_link : Option String

/-- The tuple returned by `load_progress`. -/
structure LoadedProgress where
  mode : String
  page : Option Int
  pet_type : Option String
  verification_link : Option String
deriving DecidableEq

/-- `load_progress` (src/server.py lines 255-292).  The input `none` models
both "the progress file does not exist" and "reading/parsing it raised": the
two code paths return the identical default tuple
`("scraping", 1, "dog", None)`. -/
def load_progress (file : Option ProgressDoc) : LoadedProgress :=
  match file with
  | none => ⟨"scraping", some 1, some "dog", none⟩
  | some p =>
    if p.mode.getD "scraping" = "verification" then
      ⟨"verification", none, none, p.verification_link⟩
    else
      let pg0 := p.page.getD 1
      let pg := if pg0 < 1 ∨ pg0 > 10000 then 1 else pg0
      let pt0 := p.pet_type.getD "dog"
      let pt := if pt0 ≠ "dog" ∧ pt0 ≠ "cat" then "dog" else pt0
      ⟨"scraping", some pg, some pt, none⟩

/-- What one call to `get_existing_links` produces, split into its three
observable effects. -/
structure LinksReadResult where
  result : Finset String
  cached : Finset String
  errorLogged : Bool

/-- `get_existing_links` on a cache miss with the CSV present (src/server.py
lines 203-219).  `rowsRead` is the list of rows the reader yielded before a
possible failure and `readFailed` says whether the read raised.  Either way
the accumulated key set is cached and returned to the caller; the only
failure indication is the log line. -/
def get_existing_links (rowsRead : List PetRow) (readFailed : Bool) :
    LinksReadResult :=
  let s := ((rowsRead.map rowKey).filter (fun l => l ≠ "")).toFinset
  ⟨s, s, readFailed⟩

/-- Modelled from the spec: the control surface's recent-throughput query.
The `/status` endpoint in src/server.py (lines 682-685) returns only the
`server_status` counters, and no rolling-window rate computation appears
anywhere under src/; the spec describes it as "count of completions within
the last 15 minutes ÷ 15, i.e., items per minute", over fetch-completion
timestamps.  Times are in seconds; 15 minutes = 900 seconds. -/
def recent_rate (stamps : List Nat) (now : Nat) : ℚ :=
  ((stamps.filter (fun t => now - t ≤ 900)).length : ℚ) / 15

/-- C5: for every key, `verify_link` answers by the 3-of-15 failed-field
threshold: a successful re-fetch reporting `n` failed fields is valid exactly
when `n < 3`; in particular 2 failed fields is retained by the verification
pass and 3 failed fields is removed. -/
theorem verify_link_threshold :
    (∀ (fc : String → Option Nat) (l : String) (n : Nat),
      fc l = some n → (verify_link fc l = true ↔ n < 3))
    ∧ (∀ l : String, verify_link (fun _ => some 2) l = true)
    ∧ (∀ l : String, verify_link (fun _ => some 3) l = false)
    ∧ (∀ (r : PetRow) (fc : String → Option Nat), rowKey r ≠ "" →
        fc (rowKey r) = some 2 →
        (verifyFrom (verify_link fc) [r]).kept = [r]
          ∧ (verifyFrom (verify_link fc) [r]).removed = 0)
    ∧ (∀ (r : PetRow) (fc : String → Option Nat), rowKey r ≠ "" →
        fc (rowKey r) = some 3 →
        (verifyFrom (verify_link fc) [r]).kept = []
          ∧ (verifyFrom (verify_link fc) [r]).removed = 1) := by
  refine ⟨?_, ?_, ?_, ?_, ?_⟩
  · intro fc l n h
    simp only [verify_link, h]
    constructor
    · intro hv
      by_contra hn
      simp [Nat.not_lt] at hn
      simp [if_pos hn] at hv
    · intro hn
      have : ¬ n ≥ 3 := by omega
      simp [if_neg this]
  · intro l; simp [verify_link]
  · intro l; simp [verify_link]
  · intro r fc hne hfc
    have hv : verify_link fc (rowKey r) = true := by simp [verify_link, hfc]
    constructor <;> simp [verifyFrom, if_neg hne, hv]
  · intro r fc hne hfc
    have hv : verify_link fc (rowKey r) = false := by simp [verify_link, hfc]
    constructor <;> simp [verifyFrom, if_neg hne, hv]

/-- Witness for C5 at concrete inputs: the threshold boundary at 2 and 3
failed fields for the row with link "L". -/
theorem verify_link_threshold_witness :
    (verify_link (fun _ => some 2) "L" = true ↔ 2 < 3)
    ∧ ((verifyFrom (verify_link (fun _ => some 2)) [rowL]).kept = [rowL]
        ∧ (verifyFrom (verify_link (fun _ => some 2)) [rowL]).removed = 0)
    ∧ ((verifyFrom (verify_link (fun _ => some 3)) [rowL]).kept = []
        ∧ (verifyFrom (verify_link (fun _ => some 3)) [rowL]).removed = 1) :=
  ⟨verify_link_threshold.1 (fun _ => some 2) "L" 2 rfl,
   verify_link_threshold.2.2.2.1 rowL (fun _ => some 2) (by decide) rfl,
   verify_link_threshold.2.2.2.2 rowL (fun _ => some 3) (by decide) rfl⟩

/-- C6: `load_progress` returns the default state (scraping, page 1, "dog")
when no checkpoint exists or it is unreadable, and silently resets an
out-of-range page (outside 1..10000) to 1 and an unrecognised category
(outside {dog, cat}) to "dog" instead of failing. -/
theorem load_progress_defaults :
    (load_progress none = ⟨"scraping", some 1, some "dog", none⟩)
    ∧ (∀ (p : ProgressDoc) (pg : Int), p.mode.getD "scraping" ≠ "verification" →
        p.page = some pg → (pg < 1 ∨ pg > 10000) →
        (load_progress (some p)).page = some 1)
    ∧ (∀ (p : ProgressDoc) (pt : String), p.mode.getD "scraping" ≠ "verification" →
        p.pet_type = some pt → pt ≠ "dog" → pt ≠ "cat" →
        (load_progress (some p)).pet_type = some "dog")
    ∧ (∀ p : ProgressDoc, p.mode.getD "scraping" ≠ "verification" →
        (load_progress (some p)).mode = "scraping") := by
  refine ⟨rfl, ?_, ?_, ?_⟩
  · intro p pg hm hpg hrange
    simp [load_progress, if_neg hm, hpg, if_pos hrange]
  · intro p pt hm hpt hd hc
    have : pt ≠ "dog" ∧ pt ≠ "cat" := ⟨hd, hc⟩
    simp [load_progress, if_neg hm, hpt, if_pos this]
  · intro p hm
    simp [load_progress, if_neg hm]

/-- Witness for C6 at a concrete checkpoint: page 20000 and category "bird"
are both reset to their defaults. -/
theorem load_progress_defaults_witness :
    (load_progress (some ⟨some "scraping", some 20000, some "bird", none⟩)).page = some 1
    ∧ (load_progress (some ⟨some "scraping", some 20000, some "bird", none⟩)).pet_type
        = some "dog" :=
  ⟨load_progress_defaults.2.1 ⟨some "scraping", some 20000, some "bird", none⟩ 20000
      (by decide) rfl (by decide),
   load_progress_defaults.2.2.1 ⟨some "scraping", some 20000, some "bird", none⟩ "bird"
      (by decide) rfl (by decide) (by decide)⟩

/-- C9: the recent-throughput query is the count of fetch-completion
timestamps in the trailing 15-minute window divided by 15; at the claim's
concrete input all four timestamps 0, 60, 120, 900 fall inside the window at
query time 900 and the rate is 4/15 items per minute. -/
theorem rate_window_example :
    (∀ (ts : List Nat) (now : Nat),
      recent_rate ts now = ((ts.filter (fun t => now - t ≤ 900)).length : ℚ) / 15)
    ∧ ([0, 60, 120, 900].filter (fun t => 900 - t ≤ 900)).length = 4
    ∧ recent_rate [0, 60, 120, 900] 900 = 4 / 15 := by
  refine ⟨fun ts now => rfl, by decide, ?_⟩
  have h : ([0, 60, 120, 900].filter (fun t => 900 - t ≤ 900)).length = 4 := by decide
  simp [recent_rate, h]

/-- Witness for C9: the general form instantiated at the claim's input. -/
theorem rate_window_example_witness :
    recent_rate [0, 60, 120, 900] 900
      = (([0, 60, 120, 900].filter (fun t => (900 : Nat) - t ≤ 900)).length : ℚ) / 15 :=
  rate_window_example.1 [0, 60, 120, 900] 900

theorem applyOps_csv_of_no_replace {α : Type} (ops : List (FsOp α))
    (h : FsOp.replaceTmp ∉ ops) :
    ∀ fs : FsState α, (applyOps fs ops).csv = fs.csv := by
  induction ops with
  | nil => intro fs; rfl
  | cons op rest ih =>
    intro fs
    have hop : op ≠ FsOp.replaceTmp := fun he => h (he ▸ List.mem_cons_self _ _)
    have hrest : FsOp.replaceTmp ∉ rest := fun hm => h (List.mem_cons_of_mem _ hm)
    have hstep : applyOps fs (op :: rest) = applyOps (applyOp fs op) rest := rfl
    have hcsv : (applyOp fs op).csv = fs.csv := by
      cases op with
      | removeTmp => rfl
      | writeTmp c => rfl
      | replaceTmp => exact absurd rfl hop
    rw [hstep, ih hrest, hcsv]

/-- C2: both full rewrites of the record store (the verification rewrite of
`verify_all_pets` and the per-upsert rewrite of `save_pet_to_csv`) write the
new table to the temporary path and install it with the single `replaceTmp`
step; the verification rewrite removes any pre-existing temp artifact as its
first operation; and applying any prefix of either trace that stops before
the final replace leaves the persisted table exactly as it was, while the
full trace installs the new content. -/
theorem atomic_rewrite_safety :
    (∀ (α : Type) (fs : FsState α) (c : α) (pre suf : List (FsOp α)),
      pre ++ suf = verifyRewriteOps c → FsOp.replaceTmp ∉ pre →
      (applyOps fs pre).csv = fs.csv)
    ∧ (∀ (α : Type) (fs : FsState α) (c : α) (pre suf : List (FsOp α)),
      pre ++ suf = savePetOps c → FsOp.replaceTmp ∉ pre →
      (applyOps fs pre).csv = fs.csv)
    ∧ (∀ (α : Type) (fs : FsState α) (c : α),
      applyOps fs (verifyRewriteOps c) = ⟨some c, none⟩)
    ∧ (∀ (α : Type) (fs : FsState α) (c : α),
      applyOps fs (savePetOps c) = ⟨some c, none⟩)
    ∧ (∀ (α : Type) (c : α), (verifyRewriteOps c).head? = some FsOp.removeTmp)
    ∧ (∀ (α : Type) (fs : FsState α), (applyOps fs [FsOp.removeTmp]).tmp = none) := by
  refine ⟨?_, ?_, ?_, ?_, ?_, ?_⟩
  · intro α fs c pre suf _ hnm
    exact applyOps_csv_of_no_replace pre hnm fs
  · intro α fs c pre suf _ hnm
    exact applyOps_csv_of_no_replace pre hnm fs
  · intro α fs c; rfl
  · intro α fs c; rfl
  · intro α c; rfl
  · intro α fs; rfl

/-- Witness for C2: the verification-rewrite trace interrupted right after
the temp write (before the replace) leaves the persisted table unchanged. -/
theorem atomic_rewrite_safety_witness :
    (applyOps (⟨some 7, some 3⟩ : FsState Nat)
      [FsOp.removeTmp, FsOp.writeTmp 9]).csv = some 7 :=
  atomic_rewrite_safety.1 Nat ⟨some 7, some 3⟩ 9
    [FsOp.removeTmp, FsOp.writeTmp 9] [FsOp.replaceTmp] rfl (by decide)

/-- C7: a page-lister failure is retried exactly 3 times with a fixed 5 second
delay between attempts; if every attempt fails, `scrape_pets_from_page`
returns 0 (the page/category is treated as zero results and the harvest
continues); a success stops the retrying, and no trace ever holds more than 3
attempts. -/
theorem page_lister_retry :
    (∀ lister : Nat → Option (List String), (∀ i, i < 3 → lister i = none) →
      fetchLinksRetry lister
        = (none, [.attempt 0, .wait 5, .attempt 1, .wait 5, .attempt 2])
      ∧ ∀ (fetchOk : String → Bool) (existing : List String),
          scrape_pets_from_page lister fetchOk existing = 0)
    ∧ (∀ (lister : Nat → Option (List String)) (ls : List String),
        lister 0 = some ls → fetchLinksRetry lister = (some ls, [.attempt 0]))
    ∧ (∀ lister : Nat → Option (List String),
        ((fetchLinksRetry lister).2.filter isAttemptEv).length ≤ 3) := by
  refine ⟨?_, ?_, ?_⟩
  · intro lister h
    have h0 : lister 0 = none := h 0 (by omega)
    have h1 : lister 1 = none := h 1 (by omega)
    have h2 : lister 2 = none := h 2 (by omega)
    constructor
    · simp [fetchLinksRetry, h0, h1, h2]
    · intro fetchOk existing
      simp [scrape_pets_from_page, fetchLinksRetry, h0, h1, h2]
  · intro lister ls h
    simp [fetchLinksRetry, h]
  · intro lister
    cases h0 : lister 0 with
    | some ls => simp [fetchLinksRetry, h0, isAttemptEv]
    | none =>
      cases h1 : lister 1 with
      | some ls => simp [fetchLinksRetry, h0, h1, isAttemptEv]
      | none =>
        cases h2 : lister 2 with
        | some ls => simp [fetchLinksRetry, h0, h1, h2, isAttemptEv]
        | none => simp [fetchLinksRetry, h0, h1, h2, isAttemptEv]

/-- Witness for C7: an always-failing lister produces the three-attempt
trace with the fixed delays and a zero result for the page. -/
theorem page_lister_retry_witness :
    fetchLinksRetry (fun _ => none)
      = (none, [.attempt 0, .wait 5, .attempt 1, .wait 5, .attempt 2])
    ∧ scrape_pets_from_page (fun _ => none) vTrue [] = 0 :=
  ⟨(page_lister_retry.1 (fun _ => none) (fun _ _ => rfl)).1,
   (page_lister_retry.1 (fun _ => none) (fun _ _ => rfl)).2 vTrue []⟩

/-- C8 (amended): on a cache-miss read of an existing store, the caller
always receives — and the cache always stores — the key set accumulated
before any failure; a failed read is reported only through the log line,
so the returned value carries no error indication. -/
theorem links_read_logged_only :
    (∀ (rowsRead : List PetRow) (readFailed : Bool),
      (get_existing_links rowsRead readFailed).result
        = ((rowsRead.map rowKey).filter (fun l => l ≠ "")).toFinset
      ∧ (get_existing_links rowsRead readFailed).cached
        = (get_existing_links rowsRead readFailed).result)
    ∧ (∀ rowsRead : List PetRow,
        (get_existing_links rowsRead true).errorLogged = true)
    ∧ (∀ rowsRead : List PetRow,
        (get_existing_links rowsRead true).result
          = (get_existing_links rowsRead false).result) :=
  ⟨fun _ _ => ⟨rfl, rfl⟩, fun _ => rfl, fun _ => rfl⟩

/-- Counterexample for C8 as stated: a store that exists but whose read
fails immediately yields and caches the empty key set, and the value the
caller receives is identical to the one for a genuinely empty store — the
failure is surfaced only in the log, never to the caller. -/
theorem links_read_failure_invisible :
    (get_existing_links [] true).result = (get_existing_links [] false).result
    ∧ (get_existing_links [] true).result = ∅
    ∧ (get_existing_links [] true).cached = ∅
    ∧ (get_existing_links [] true).errorLogged = true :=
  ⟨rfl, rfl, rfl, rfl⟩

theorem skipToResume_eq_filter (valid : String → Bool) (K : String)
    (rows : List PetRow) (hnf : ∀ r ∈ rows, rowKey r ≠ K) :
    skipToResume valid K rows = ⟨rows.filter (fun r => rowKey r ≠ ""), 0, []⟩ := by
  induction rows with
  | nil => rfl
  | cons r rs ih =>
    have hr : rowKey r ≠ K := hnf r (List.mem_cons_self _ _)
    have ih' := ih (fun x hx => hnf x (List.mem_cons_of_mem _ hx))
    by_cases he : rowKey r = ""
    · simp [skipToResume, he, ih', List.filter_cons]
    · simp [skipToResume, he, hr, ih', List.filter_cons]

/-- C10: resuming verification with a key that matches no stored row
validates nothing: no checkpoint is saved and no validator call happens
(empty event trace), every row with a nonempty stripped link is retained
as-is and in order, every row with an empty or whitespace-only link is
dropped, and 0 removals are reported. -/
theorem verify_resume_missing_key (valid : String → Bool) (K : String)
    (rows : List PetRow) (hnf : ∀ r ∈ rows, rowKey r ≠ K) :
    verify_all_pets valid (some K) rows
      = ⟨rows.filter (fun r => rowKey r ≠ ""), 0, []⟩ :=
  skipToResume_eq_filter valid K rows hnf

/-- Witness for C10: a table with one real row and one whitespace-only row,
resumed from the absent key "Z". -/
theorem verify_resume_missing_key_witness :
    verify_all_pets vTrue (some "Z") [rowK, wsRow]
      = ⟨[rowK, wsRow].filter (fun r => rowKey r ≠ ""), 0, []⟩ :=
  verify_resume_missing_key vTrue "Z" [rowK, wsRow] (by decide)

theorem verifyFrom_cons_events (valid : String → Bool) (r0 : PetRow)
    (post : List PetRow) (hne : rowKey r0 ≠ "") :
    (verifyFrom valid (r0 :: post)).events
      = .save (rowKey r0) :: .validate (rowKey r0) :: (verifyFrom valid post).events := by
  by_cases hv : valid (rowKey r0) <;> simp [verifyFrom, hne, hv]

theorem skipToResume_prefix (valid : String → Bool) (K : String)
    (pre post : List PetRow) (r0 : PetRow) (hr0 : rowKey r0 = K) (hK : K ≠ "")
    (hpre : ∀ r ∈ pre, rowKey r ≠ K) :
    skipToResume valid K (pre ++ r0 :: post)
      = ⟨pre.filter (fun r => rowKey r ≠ "") ++ (verifyFrom valid (r0 :: post)).kept,
          (verifyFrom valid (r0 :: post)).removed,
          (verifyFrom valid (r0 :: post)).events⟩ := by
  induction pre with
  | nil =>
    have : skipToResume valid K (r0 :: post) = verifyFrom valid (r0 :: post) := by
      simp [skipToResume, hr0, hK]
    simpa using this
  | cons r pr ih =>
    have hr : rowKey r ≠ K := hpre r (List.mem_cons_self _ _)
    have ih' := ih (fun x hx => hpre x (List.mem_cons_of_mem _ hx))
    by_cases he : rowKey r = ""
    · simp [skipToResume, he, ih', List.filter_cons]
    · simp [skipToResume, he, hr, ih', List.filter_cons]

/-- C4 (amended): resuming verification from a key K that occurs in the
table leaves every record before K's row unexamined in the sense that the
validator is never called for it (the whole event trace starts at K), and
every such record with a nonempty key is retained; records before K whose
link is empty or whitespace-only are dropped, not retained.  K's own row is
re-validated, and the (verifying, K) checkpoint save happens before the
validator call for K. -/
theorem verify_resume_prefix (valid : String → Bool) (K : String)
    (pre post : List PetRow) (r0 : PetRow)
    (hr0 : rowKey r0 = K) (hK : K ≠ "")
    (hpre : ∀ r ∈ pre, rowKey r ≠ K) :
    (verify_all_pets valid (some K) (pre ++ r0 :: post)).events
        = VEvent.save K :: VEvent.validate K :: (verifyFrom valid post).events
    ∧ (verify_all_pets valid (some K) (pre ++ r0 :: post)).kept
        = pre.filter (fun r => rowKey r ≠ "") ++ (verifyFrom valid (r0 :: post)).kept
    ∧ (verify_all_pets valid (some K) (pre ++ r0 :: post)).removed
        = (verifyFrom valid (r0 :: post)).removed
    ∧ (∀ r ∈ pre, rowKey r ≠ "" →
        r ∈ (verify_all_pets valid (some K) (pre ++ r0 :: post)).kept) := by
  have hva : verify_all_pets valid (some K) (pre ++ r0 :: post)
      = skipToResume valid K (pre ++ r0 :: post) := rfl
  have h := skipToResume_prefix valid K pre post r0 hr0 hK hpre
  have hne : rowKey r0 ≠ "" := by rw [hr0]; exact hK
  have hev := verifyFrom_cons_events valid r0 post hne
  rw [hr0] at hev
  refine ⟨?_, ?_, ?_, ?_⟩
  · rw [hva, h]; exact hev
  · rw [hva, h]
  · rw [hva, h]
  · intro r hrmem hrne
    rw [hva, h]
    exact List.mem_append_left _ (List.mem_filter.2 ⟨hrmem, by simp [hrne]⟩)

/-- Witness for C4's amended theorem: table [rowL, rowK] resumed from "K";
the checkpoint save for "K" precedes its validation, and rowL is retained
unexamined. -/
theorem verify_resume_prefix_witness :
    (verify_all_pets vTrue (some "K") ([rowL] ++ rowK :: [])).events
        = VEvent.save "K" :: VEvent.validate "K" :: (verifyFrom vTrue []).events
    ∧ (verify_all_pets vTrue (some "K") ([rowL] ++ rowK :: [])).kept
        = [rowL].filter (fun r => rowKey r ≠ "") ++ (verifyFrom vTrue (rowK :: [])).kept
    ∧ (verify_all_pets vTrue (some "K") ([rowL] ++ rowK :: [])).removed
        = (verifyFrom vTrue (rowK :: [])).removed
    ∧ (∀ r ∈ [rowL], rowKey r ≠ "" →
        r ∈ (verify_all_pets vTrue (some "K") ([rowL] ++ rowK :: [])).kept) :=
  verify_resume_prefix vTrue "K" [rowL] [] rowK (by decide) (by decide) (by decide)

/-- Counterexample for C4 as stated: in the table [wsRow, rowK] the
whitespace-link row precedes the resume key "K" in stored order, yet the
rewritten table retains only the "K" row — a record preceding the resume key
is not retained (it is dropped by the empty-link filter), refuting "they are
all retained in the rewritten table". -/
theorem verify_resume_drops_blank_prefix :
    ((verify_all_pets vTrue (some "K") [wsRow, rowK]).kept.map
        (fun r => r Col.link)) = ["K"]
    ∧ (verify_all_pets vTrue (some "K") [wsRow, rowK]).kept.length = 1
    ∧ wsRow Col.link = " " := by
  refine ⟨by decide, by decide, rfl⟩

theorem mem_processedPairs {s p : Nat} {t c : String}
    (h : (p, c) ∈ processedPairs s t) : s ≤ p ∧ c ∈ petTypesFor p s t := by
  simp only [processedPairs, List.mem_flatten, List.mem_map] at h
  obtain ⟨l, ⟨q, hq, rfl⟩, hmem⟩ := h
  rw [List.mem_map] at hmem
  obtain ⟨c', hc', heq⟩ := hmem
  have h1 : q = p := congrArg Prod.fst heq
  have h2 : c' = c := congrArg Prod.snd heq
  subst h1; subst h2
  have hrange := (List.mem_range'_1.1 (by simpa [pagesFrom] using hq)).1
  exact ⟨hrange, hc'⟩

theorem pair_mem_processedPairs {s p : Nat} {t c : String}
    (hp : p ∈ pagesFrom s) (hc : c ∈ petTypesFor p s t) :
    (p, c) ∈ processedPairs s t := by
  simp only [processedPairs, List.mem_flatten, List.mem_map]
  refine ⟨(petTypesFor p s t).map (fun c => (p, c)), ⟨p, hp, rfl⟩, ?_⟩
  rw [List.mem_map]
  exact ⟨c, hc, rfl⟩

theorem processedPairs_head (P : Nat) (t : String) (hP : P ≤ PAGE_MAX) (ht : t ≠ "") :
    (processedPairs P t).head? = some (P, if t = "dog" then "dog" else "cat") := by
  obtain ⟨k, hk⟩ : ∃ k, PAGE_MAX + 1 - P = k + 1 := ⟨PAGE_MAX - P, by omega⟩
  simp only [processedPairs, pagesFrom, hk, List.range'_succ]
  by_cases hd : t = "dog" <;> simp [petTypesFor, ht, hd]

/-- C3 (amended): a fresh harvest run resumed from checkpoint (P, C) begins
at page P and never processes any page before P; with checkpoint category
"cat" (the second category) it does not process category "dog" of page P;
but the checkpointed category itself — already completed when the checkpoint
was saved after that category finished — is processed again: the run resumes
at the last completed category, not strictly after it (with checkpoint
category "dog" it likewise re-processes "dog" first). -/
theorem harvest_resume_position (P : Nat) (hP1 : 1 ≤ P) (hP : P ≤ PAGE_MAX) :
    ((processedPairs P "cat").head? = some (P, "cat"))
    ∧ (∀ p c, (p, c) ∈ processedPairs P "cat" → P ≤ p)
    ∧ ((P, "dog") ∉ processedPairs P "cat")
    ∧ ((P, "cat") ∈ processedPairs P "cat" ∧ completedBefore P "cat" P "cat")
    ∧ ((processedPairs P "dog").head? = some (P, "dog"))
    ∧ (∀ p c, (p, c) ∈ processedPairs P "dog" → P ≤ p)
    ∧ ((P, "dog") ∈ processedPairs P "dog" ∧ completedBefore P "dog" P "dog") := by
  have hpageP : P ∈ pagesFrom P := by
    simp only [pagesFrom, List.mem_range'_1]
    omega
  refine ⟨?_, ?_, ?_, ⟨?_, ?_⟩, ?_, ?_, ⟨?_, ?_⟩⟩
  · simpa using processedPairs_head P "cat" hP (by decide)
  · intro p c h; exact (mem_processedPairs h).1
  · intro h
    have := (mem_processedPairs h).2
    simp [petTypesFor] at this
  · exact pair_mem_processedPairs hpageP (by simp [petTypesFor])
  · exact ⟨hP1, Or.inr ⟨rfl, le_refl _⟩⟩
  · simpa using processedPairs_head P "dog" hP (by decide)
  · intro p c h; exact (mem_processedPairs h).1
  · exact pair_mem_processedPairs hpageP (by simp [petTypesFor])
  · exact ⟨hP1, Or.inr ⟨rfl, le_refl _⟩⟩

/-- Witness for C3's amended theorem at the claim's concrete checkpoint
page 5. -/
theorem harvest_resume_position_witness :
    ((processedPairs 5 "cat").head? = some (5, "cat"))
    ∧ (∀ p c, (p, c) ∈ processedPairs 5 "cat" → 5 ≤ p)
    ∧ ((5, "dog") ∉ processedPairs 5 "cat")
    ∧ ((5, "cat") ∈ processedPairs 5 "cat" ∧ completedBefore 5 "cat" 5 "cat")
    ∧ ((processedPairs 5 "dog").head? = some (5, "dog"))
    ∧ (∀ p c, (p, c) ∈ processedPairs 5 "dog" → 5 ≤ p)
    ∧ ((5, "dog") ∈ processedPairs 5 "dog" ∧ completedBefore 5 "dog" 5 "dog") :=
  harvest_resume_position 5 (by decide) (by decide)

/-- Counterexample for C3 as stated: the checkpoint (harvesting, page = 5,
category = "cat") is saved (src/server.py line 615) only after category "cat"
of page 5 has completed, so (5, "cat") was completed before the checkpoint
was saved; yet a fresh run resumed from that checkpoint processes (5, "cat")
again — refuting "does not re-scan any category of page P that was completed
before the checkpoint was saved" / "the run resumes at the next
category/page rather than re-scanning completed ones". -/
theorem harvest_resume_rescans_completed :
    (5, "cat") ∈ processedPairs 5 "cat" ∧ completedBefore 5 "cat" 5 "cat" := by
  constructor
  · refine pair_mem_processedPairs ?_ (by simp [petTypesFor])
    simp only [pagesFrom, List.mem_range'_1]
    norm_num [PAGE_MAX]
  · exact ⟨by omega, Or.inr ⟨rfl, le_refl _⟩⟩

theorem petLink_escapePD (pd : PetData) : petLink (escapePD pd) = petLink pd := rfl

theorem escapePD_ne_about (pd : PetData) (c : Col) (h : c ≠ Col.about_me) :
    escapePD pd c = pd c := if_neg h

theorem escapePD_none (pd : PetData) (c : Col) (h : pd c = none) :
    escapePD pd c = none := by
  unfold escapePD
  by_cases hc : c = Col.about_me
  · simp [hc, h.symm ▸ h, hc ▸ h]
  · simp [hc, h]

theorem rowKey_mergeRow (pd : PetData) (r : PetRow) (h : rowKey r = petLink pd) :
    rowKey (mergeRow pd r) = petLink pd := by
  show pstrip ((pd Col.link).getD (r Col.link)) = petLink pd
  cases hcl : pd Col.link with
  | none => exact h
  | some v => simp [petLink, hcl]

theorem rowKey_newRow (pd : PetData) : rowKey (newRow pd) = petLink pd := rfl

theorem upsert_map_self (pd : PetData) (l : List PetRow)
    (h : ∀ r ∈ l, rowKey r ≠ petLink pd) :
    l.map (fun r => if rowKey r = petLink pd then mergeRow pd r else r) = l := by
  have hcongr := List.map_congr_left (l := l)
    (f := fun r => if rowKey r = petLink pd then mergeRow pd r else r) (g := id)
    (fun r hr => if_neg (h r hr))
  simpa using hcongr

theorem upsertRows_found (pd : PetData) (pre post : List PetRow) (r0 : PetRow)
    (hpre : ∀ r ∈ pre, rowKey r ≠ petLink pd)
    (hpost : ∀ r ∈ post, rowKey r ≠ petLink pd)
    (hr0 : rowKey r0 = petLink pd) :
    upsertRows pd (pre ++ r0 :: post) = pre ++ mergeRow pd r0 :: post := by
  unfold upsertRows
  have hany : (pre ++ r0 :: post).any (fun r => rowKey r = petLink pd) = true := by
    rw [List.any_eq_true]
    exact ⟨r0, by simp, by simp [hr0]⟩
  rw [if_pos hany, List.map_append, List.map_cons,
    upsert_map_self pd pre hpre, upsert_map_self pd post hpost]
  simp [hr0]

theorem upsertRows_notFound (pd : PetData) (rows : List PetRow)
    (h : ∀ r ∈ rows, rowKey r ≠ petLink pd) :
    upsertRows pd rows = rows ++ [newRow pd] := by
  unfold upsertRows
  have hany : ¬ (rows.any (fun r => rowKey r = petLink pd) = true) := by
    intro hc
    rw [List.any_eq_true] at hc
    obtain ⟨r, hr, hk⟩ := hc
    exact h r hr (by simpa using hk)
  rw [if_neg hany]

theorem countKey_append (k : String) (l1 l2 : List PetRow) :
    countKey k (l1 ++ l2) = countKey k l1 + countKey k l2 := by
  simp [countKey, List.filter_append]

theorem countKey_eq_zero {k : String} {l : List PetRow}
    (h : ∀ r ∈ l, rowKey r ≠ k) : countKey k l = 0 := by
  unfold countKey
  rw [List.length_eq_zero, List.filter_eq_nil_iff]
  intro a ha
  simpa using h a ha

theorem countKey_cons_self {k : String} {r : PetRow} (h : rowKey r = k)
    (l : List PetRow) : countKey k (r :: l) = countKey k l + 1 := by
  simp [countKey, List.filter_cons, h]

theorem countKey_cons_ne {k : String} {r : PetRow} (h : rowKey r ≠ k)
    (l : List PetRow) : countKey k (r :: l) = countKey k l := by
  simp [countKey, List.filter_cons, h]

theorem countKey_upsert_map (pd : PetData) (rows : List PetRow) :
    countKey (petLink pd)
      (rows.map (fun r => if rowKey r = petLink pd then mergeRow pd r else r))
      = countKey (petLink pd) rows := by
  induction rows with
  | nil => rfl
  | cons r rs ih =>
    rw [List.map_cons]
    by_cases hm : rowKey r = petLink pd
    · simp only [if_pos hm]
      rw [countKey_cons_self (rowKey_mergeRow pd r hm), countKey_cons_self hm, ih]
    · simp only [if_neg hm]
      rw [countKey_cons_ne hm, countKey_cons_ne hm, ih]

theorem countKey_pos_of_any {pd : PetData} {rows : List PetRow}
    (h : rows.any (fun r => rowKey r = petLink pd) = true) :
    1 ≤ countKey (petLink pd) rows := by
  rw [List.any_eq_true] at h
  obtain ⟨r, hr, hk⟩ := h
  have hk' : rowKey r = petLink pd := by simpa using hk
  have hmem : r ∈ rows.filter (fun r => rowKey r = petLink pd) :=
    List.mem_filter.2 ⟨hr, by simp [hk']⟩
  have hpos := List.length_pos.2 (List.ne_nil_of_mem hmem)
  unfold countKey
  omega

theorem countKey_upsert (pd : PetData) (rows : List PetRow)
    (h : countKey (petLink pd) rows ≤ 1) :
    countKey (petLink pd) (upsertRows pd rows) = 1 := by
  unfold upsertRows
  by_cases hany : rows.any (fun r => rowKey r = petLink pd) = true
  · rw [if_pos hany, countKey_upsert_map]
    have hpos := countKey_pos_of_any hany
    omega
  · rw [if_neg hany]
    have h0 : countKey (petLink pd) rows = 0 := by
      apply countKey_eq_zero
      intro r hr hk
      exact hany (List.any_eq_true.2 ⟨r, hr, by simp [hk]⟩)
    rw [countKey_append, h0, countKey_cons_self (rowKey_newRow pd) []]
    rfl

theorem mem_upsertRows_key_fields (pd : PetData) (rows : List PetRow) (r : PetRow)
    (hmem : r ∈ upsertRows pd rows) (hkey : rowKey r = petLink pd) :
    ∀ c v, pd c = some v → r c = v := by
  unfold upsertRows at hmem
  by_cases hany : rows.any (fun r => rowKey r = petLink pd) = true
  · rw [if_pos hany, List.mem_map] at hmem
    obtain ⟨r', hr', heq⟩ := hmem
    by_cases hm : rowKey r' = petLink pd
    · simp only [if_pos hm] at heq
      subst heq
      intro c v hv
      simp [mergeRow, hv]
    · simp only [if_neg hm] at heq
      subst heq
      exact absurd hkey hm
  · rw [if_neg hany, List.mem_append] at hmem
    rcases hmem with h' | h'
    · exact absurd (List.any_eq_true.2 ⟨r, h', by simp [hkey]⟩) hany
    · rw [List.mem_singleton] at h'
      subst h'
      intro c v hv
      simp [newRow, hv]

theorem countKey_upsertSeq_le (K : String) (pds : List PetData) :
    ∀ rows : List PetRow, (∀ p ∈ pds, petLink p = K) → countKey K rows ≤ 1 →
      countKey K (upsertSeq pds rows) ≤ 1 := by
  induction pds with
  | nil => intro rows _ h; exact h
  | cons p ps ih =>
    intro rows hall h
    have hp : petLink p = K := hall p (List.mem_cons_self _ _)
    have hstep : upsertSeq (p :: ps) rows = upsertSeq ps (save_pet_to_csv p rows) := rfl
    rw [hstep]
    refine ih _ (fun q hq => hall q (List.mem_cons_of_mem _ hq)) ?_
    have h1 := countKey_upsert (escapePD p) rows
      (by rw [petLink_escapePD, hp]; exact h)
    rw [petLink_escapePD, hp] at h1
    exact le_of_eq h1

/-- C1 (amended): `save_pet_to_csv` is a merge-by-key upsert.  Against a
table holding exactly one row for the payload's key (and with no other row
under that key), the update merges in place: the table keeps all other rows
unchanged in their positions, holds exactly one row for the key, that row
takes the payload's value for every present column — where the value written
for a present nonempty `about_me` is its newline-escaped form, and coincides
with the payload value for every other column — and keeps the previously
stored value for every absent column.  Against a table without the key, the
new row is appended.  Consequently any nonempty sequence of upserts to a
single key leaves exactly one row for that key, carrying the last payload's
(escaped) field values. -/
theorem save_pet_upsert_spec :
    (∀ (pd : PetData) (pre post : List PetRow) (r0 : PetRow),
      (∀ r ∈ pre, rowKey r ≠ petLink pd) → (∀ r ∈ post, rowKey r ≠ petLink pd) →
      rowKey r0 = petLink pd →
        save_pet_to_csv pd (pre ++ r0 :: post) = pre ++ mergeRow (escapePD pd) r0 :: post
      ∧ countKey (petLink pd) (save_pet_to_csv pd (pre ++ r0 :: post)) = 1
      ∧ (∀ c v, escapePD pd c = some v → mergeRow (escapePD pd) r0 c = v)
      ∧ (∀ c, pd c = none → mergeRow (escapePD pd) r0 c = r0 c)
      ∧ (∀ c, c ≠ Col.about_me → escapePD pd c = pd c))
    ∧ (∀ (pd : PetData) (rows : List PetRow),
      (∀ r ∈ rows, rowKey r ≠ petLink pd) →
        save_pet_to_csv pd rows = rows ++ [newRow (escapePD pd)]
      ∧ countKey (petLink pd) (save_pet_to_csv pd rows) = 1)
    ∧ (∀ (pdsInit : List PetData) (pLast : PetData) (K : String) (rows : List PetRow),
      (∀ p ∈ pdsInit ++ [pLast], petLink p = K) → countKey K rows ≤ 1 →
        countKey K (upsertSeq (pdsInit ++ [pLast]) rows) = 1
      ∧ (∀ r ∈ upsertSeq (pdsInit ++ [pLast]) rows, rowKey r = K →
          ∀ c v, escapePD pLast c = some v → r c = v)) := by
  refine ⟨?_, ?_, ?_⟩
  · intro pd pre post r0 hpre hpost hr0
    have hc1 : countKey (petLink pd) (pre ++ r0 :: post) = 1 := by
      rw [countKey_append, countKey_eq_zero hpre, countKey_cons_self hr0,
        countKey_eq_zero hpost]
    refine ⟨?_, ?_, ?_, ?_, ?_⟩
    · show upsertRows (escapePD pd) (pre ++ r0 :: post) = _
      exact upsertRows_found (escapePD pd) pre post r0 hpre hpost hr0
    · have h1 := countKey_upsert (escapePD pd) (pre ++ r0 :: post) (le_of_eq hc1)
      exact h1
    · intro c v hv
      simp [mergeRow, hv]
    · intro c hc
      simp [mergeRow, escapePD_none pd c hc]
    · intro c hc
      exact escapePD_ne_about pd c hc
  · intro pd rows hnone
    constructor
    · show upsertRows (escapePD pd) rows = rows ++ [newRow (escapePD pd)]
      exact upsertRows_notFound (escapePD pd) rows hnone
    · have h0 : countKey (petLink pd) rows = 0 := countKey_eq_zero hnone
      exact countKey_upsert (escapePD pd) rows (by rw [petLink_escapePD, h0]; omega)
  · intro pdsInit pLast K rows hall hle
    have hstep : upsertSeq (pdsInit ++ [pLast]) rows
        = save_pet_to_csv pLast (upsertSeq pdsInit rows) := by
      unfold upsertSeq
      rw [List.foldl_append]
      rfl
    have hmid : countKey K (upsertSeq pdsInit rows) ≤ 1 :=
      countKey_upsertSeq_le K pdsInit rows
        (fun p hp => hall p (List.mem_append_left _ hp)) hle
    have hKlast : petLink pLast = K := hall pLast (by simp)
    constructor
    · rw [hstep]
      have h1 := countKey_upsert (escapePD pLast) (upsertSeq pdsInit rows)
        (by rw [petLink_escapePD, hKlast]; exact hmid)
      rw [petLink_escapePD, hKlast] at h1
      exact h1
    · intro r hr hkey c v hv
      rw [hstep] at hr
      refine mem_upsertRows_key_fields (escapePD pLast) (upsertSeq pdsInit rows) r hr ?_ c v hv
      rw [petLink_escapePD, hKlast]
      exact hkey

/-- Witness for C1's amended theorem: an in-place update of the single "L"
row, a fresh append into the empty table, and the two-upsert sequence
[pdRex, pdRex2] on key "L". -/
theorem save_pet_upsert_spec_witness :
    (save_pet_to_csv pdRex2 ([] ++ newRow (escapePD pdRex) :: [])
        = [] ++ mergeRow (escapePD pdRex2) (newRow (escapePD pdRex)) :: []
      ∧ countKey (petLink pdRex2)
          (save_pet_to_csv pdRex2 ([] ++ newRow (escapePD pdRex) :: [])) = 1
      ∧ (∀ c v, escapePD pdRex2 c = some v →
          mergeRow (escapePD pdRex2) (newRow (escapePD pdRex)) c = v)
      ∧ (∀ c, pdRex2 c = none →
          mergeRow (escapePD pdRex2) (newRow (escapePD pdRex)) c
            = newRow (escapePD pdRex) c)
      ∧ (∀ c, c ≠ Col.about_me → escapePD pdRex2 c = pdRex2 c))
    ∧ (save_pet_to_csv pdRex [] = [] ++ [newRow (escapePD pdRex)]
      ∧ countKey (petLink pdRex) (save_pet_to_csv pdRex []) = 1)
    ∧ (countKey "L" (upsertSeq ([pdRex] ++ [pdRex2]) []) = 1
      ∧ (∀ r ∈ upsertSeq ([pdRex] ++ [pdRex2]) [], rowKey r = "L" →
          ∀ c v, escapePD pdRex2 c = some v → r c = v)) :=
  ⟨save_pet_upsert_spec.1 pdRex2 [] [] (newRow (escapePD pdRex))
      (fun r hr => absurd hr (List.not_mem_nil r))
      (fun r hr => absurd hr (List.not_mem_nil r)) (by decide),
   save_pet_upsert_spec.2.1 pdRex [] (fun r hr => absurd hr (List.not_mem_nil r)),
   save_pet_upsert_spec.2.2 [pdRex] pdRex2 "L" [] (by decide) (by decide)⟩

/-- Counterexample for C1 as stated: upserting a record whose `about_me` is
"x\ny" (present in the payload) into the empty table stores "x\\ny" — the
newline-escaped form — not the payload's value, so "for every field name
present in the upserted record, the stored row holds the new value" fails at
the `about_me` field. -/
theorem save_pet_escapes_about_me :
    (save_pet_to_csv pdNewline []).map (fun r => r Col.about_me) = ["x\\ny"]
    ∧ pdNewline Col.about_me = some "x\ny"
    ∧ ("x\\ny" : String) ≠ "x\ny" := by
  exact ⟨by decide, rfl, by decide⟩
